import Mathlib

/- Shallow embedding of the DOCUFIND invoice-extraction engine
   (src/invoice_extractor.py, src/find_documents_main.py, src/email_processor.py).

   Conventions.
   * Python `str` values are Lean `String`s; all per-character operations are
     done on `List Char` (Python indexes strings by characters, as does
     `String.toList`).
   * Python `float` values are modelled as exact rationals `ℚ`.  Every float
     reached in this code is produced by `float(...)` on a short decimal
     string, and `str(float)` prints the shortest round-tripping decimal,
     which for these values is exactly the decimal itself; `pyFloatStr`
     reproduces that.
   * `re.findall` over the fixed pattern tables is modelled by an explicit
     oracle argument (`Oracle`): theorems that hold for every oracle hold for
     the real regex engine in particular.  Where a concrete text is evaluated,
     the oracle used is documented against the concrete pattern table.
   * Each specific regex that the code applies outside the pattern tables
     (tag stripping, e-mail/domain search, whitespace normalisation, ...) is
     embedded as a dedicated function reproducing that pattern's matching
     semantics (leftmost match, greedy/lazy quantifiers as written).  -/

/-- ASCII whitespace, Python's `\s` / `str.split()` / `str.strip()` class. -/
def pyIsSpace (c : Char) : Bool :=
  c == ' ' || c == '\t' || c == '\n' || c == '\r' || c == '\x0b' || c == '\x0c'

/-- Python `str.strip()` on a character list. -/
def pyStripList (cs : List Char) : List Char :=
  ((cs.dropWhile pyIsSpace).reverse.dropWhile pyIsSpace).reverse

/-- Python `str.strip()`. -/
def pyStrip (s : String) : String :=
  String.mk (pyStripList s.toList)

/-- Python slicing `s[:n]` (by characters). -/
def pyTake (s : String) (n : ℕ) : String :=
  String.mk (s.toList.take n)

/-- Python whitespace split, `str.split()` helper: accumulates the current word. -/
def splitWsGo (acc : List Char) : List Char → List (List Char)
  | [] => if acc.isEmpty then [] else [acc.reverse]
  | c :: rest =>
    if pyIsSpace c then
      if acc.isEmpty then splitWsGo [] rest else acc.reverse :: splitWsGo [] rest
    else
      splitWsGo (c :: acc) rest

/-- Python `str.split()` (split on whitespace runs, no empty parts). -/
def splitWsStr (s : String) : List String :=
  (splitWsGo [] s.toList).map String.mk

/-- Join character-list words with single spaces. -/
def joinWithSpace : List (List Char) → List Char
  | [] => []
  | [w] => w
  | w :: v :: rest => w ++ ' ' :: joinWithSpace (v :: rest)

/-- Python `' '.join(s.split())` (also equivalent to `re.sub(r'\s+', ' ', s).strip()`). -/
def joinSplitWs (s : String) : String :=
  String.mk (joinWithSpace (splitWsGo [] s.toList))

/-- Does `pat` occur at the head of `cs`? -/
def matchHere : List Char → List Char → Bool
  | [], _ => true
  | _ :: _, [] => false
  | p :: ps, c :: cs => p == c && matchHere ps cs

/-- Substring scan for `matchHere` at every position. -/
def hasSubList (pat : List Char) : List Char → Bool
  | [] => matchHere pat []
  | c :: rest => matchHere pat (c :: rest) || hasSubList pat rest

/-- Python `pat in hay` (substring containment). -/
def containsStr (hay pat : String) : Bool :=
  hasSubList pat.toList hay.toList

/-- Python `str.replace` engine: leftmost, non-overlapping, all occurrences.
    `fuel` bounds recursion; callers pass the list length, which suffices since
    each step consumes at least one character. -/
def replGo (old new : List Char) : ℕ → List Char → List Char
  | _, [] => []
  | 0, cs => cs
  | fuel + 1, c :: rest =>
    if !old.isEmpty && matchHere old (c :: rest) then
      new ++ replGo old new fuel (rest.drop (old.length - 1))
    else
      c :: replGo old new fuel rest

/-- Python `s.replace(old, new)`. -/
def strReplace (s old new : String) : String :=
  String.mk (replGo old.toList new.toList s.toList.length s.toList)

/-- Python `s.rfind(c)`: index of the last occurrence. -/
def lastIdxAux (c : Char) : List Char → ℕ → Option ℕ
  | [], _ => none
  | x :: rest, i =>
    match lastIdxAux c rest (i + 1) with
    | some j => some j
    | none => if x == c then some i else none

/-- Python `s.rfind(c)`, defaulting to 0 (callers guard on containment). -/
def lastIdxOf (s : String) (c : Char) : ℕ :=
  (lastIdxAux c s.toList 0).getD 0

/-- Digit-string value. -/
def digitsToNat (cs : List Char) : ℕ :=
  cs.foldl (fun a c => a * 10 + (c.toNat - '0'.toNat)) 0

/-- Python `float(s)` restricted to the strings reachable here (digits, at
    most one `.`; any comma or other character raises `ValueError` → `none`).
    The value `ip.fp` is constructed as `mkRat (ip * 10^|fp| + fp) (10^|fp|)`,
    the exact rational the decimal denotes. -/
def pyFloatQ (s : String) : Option ℚ :=
  let cs := s.toList
  if cs.isEmpty then none
  else if cs.any (fun c => !(c.isDigit || c == '.')) then none
  else if ((cs.filter (fun c => c == '.')).length ≥ 2) then none
  else if !(cs.any Char.isDigit) then none
  else
    let ip := cs.takeWhile (fun c => c != '.')
    let fp := (cs.dropWhile (fun c => c != '.')).drop 1
    some (mkRat (digitsToNat ip * 10 ^ fp.length + digitsToNat fp) (10 ^ fp.length))

/-- Characters kept by `re.sub(r'[^\d.,]', '', ...)`. -/
def keepNumCh (c : Char) : Bool :=
  c.isDigit || c == '.' || c == ','

/-- `InvoiceExtractor._parse_amount` (invoice_extractor.py:322-351): strip to
    digits/`.`/`,`, disambiguate the separators, `float(...)`, and 0.0 on any
    parse failure. -/
def parse_amount (s : String) : ℚ :=
  let clean := String.mk (s.toList.filter keepNumCh)
  let clean2 :=
    if containsStr clean "," && containsStr clean "." then
      if lastIdxOf clean ',' > lastIdxOf clean '.' then
        strReplace (strReplace clean "." "") "," "."
      else
        strReplace clean "," ""
    else if containsStr clean "," then
      if clean.toList.length - lastIdxOf clean ',' ≤ 3 then
        strReplace clean "," "."
      else
        strReplace clean "," ""
    else clean
  (pyFloatQ clean2).getD 0

/-- Python `max` on two rationals (larger argument, first one on ties). -/
def qMax (a b : ℚ) : ℚ := if a < b then b else a

/-- Python `min` on two rationals (smaller argument, first one on ties). -/
def qMin (a b : ℚ) : ℚ := if a ≤ b then a else b

/-- Python `max(list)` for a nonempty list (0 as junk value on `[]`,
    which every caller rules out). -/
def maxQList : List ℚ → ℚ
  | [] => 0
  | x :: xs => xs.foldl qMax x

/-- `q * 10 ^ k`, built with `mkRat` so that it evaluates. -/
def qMulPow10 (q : ℚ) (k : ℕ) : ℚ := mkRat (q.num * 10 ^ k) q.den

/-- Least `k` (starting from `k`, at most `n` more steps) with `q * 10^k` integral. -/
def decKGo (q : ℚ) : ℕ → ℕ → ℕ
  | k, 0 => k
  | k, n + 1 => if (qMulPow10 q k).den = 1 then k else decKGo q (k + 1) n

/-- Left-pad with zeros to `k` digits. -/
def padZeroLeft (s : String) (k : ℕ) : String :=
  String.mk (List.replicate (k - s.length) '0') ++ s

/-- Python `str(f)` for a nonnegative float `f`: the shortest round-tripping
    decimal, with a forced `.0` for integral values.  Every float printed by
    this code is an exact short decimal, for which the shortest round-trip
    representation is the decimal itself (fewest fractional digits). -/
def pyFloatStr (q : ℚ) : String :=
  if q.den = 1 then toString q.num ++ ".0"
  else
    let k := decKGo q 1 25
    let n := (qMulPow10 q k).num.toNat
    toString (n / 10 ^ k) ++ "." ++ padZeroLeft (toString (n % 10 ^ k)) k

/-- Python `str.lower()` over the character repertoire in play
    (ASCII plus the accented letters appearing in the source tables). -/
def pyLowerCh (c : Char) : Char :=
  if c = 'Á' then 'á' else if c = 'É' then 'é' else if c = 'Í' then 'í'
  else if c = 'Ó' then 'ó' else if c = 'Ú' then 'ú' else if c = 'Ñ' then 'ñ'
  else if c = 'Ü' then 'ü' else c.toLower

/-- Python `str.lower()`. -/
def pyLowerStr (s : String) : String := String.mk (s.toList.map pyLowerCh)

/-- Python `str.upper()` over the same repertoire. -/
def pyUpperCh (c : Char) : Char :=
  if c = 'á' then 'Á' else if c = 'é' then 'É' else if c = 'í' then 'Í'
  else if c = 'ó' then 'Ó' else if c = 'ú' then 'Ú' else if c = 'ñ' then 'Ñ'
  else if c = 'ü' then 'Ü' else c.toUpper

/-- Python `str.upper()`. -/
def pyUpperStr (s : String) : String := String.mk (s.toList.map pyUpperCh)

/- ## `InvoiceExtractor._select_best_match` (invoice_extractor.py:252-292) -/

/-- `[m.strip() for m in matches if m and m.strip()]`. -/
def cleanList (cands : List String) : List String :=
  (cands.filter (fun m => m ≠ "" && pyStrip m ≠ "")).map pyStrip

/-- The amount loop body: `clean = re.sub(r'[^\d.,]', '', match)`, then
    `float(clean.replace(',', ''))`, skipping empty `clean` and `ValueError`s. -/
def codeAmountVal (m : String) : Option ℚ :=
  let c := String.mk (m.toList.filter keepNumCh)
  if c = "" then none else pyFloatQ (strReplace c "," "")

/-- The vendor loop test: `'@' not in match or not any(word in match.lower()
    for word in ['noreply', 'no-reply', 'donotreply'])`. -/
def vendorOk (m : String) : Bool :=
  !(containsStr m "@") ||
    !(["noreply", "no-reply", "donotreply"].any fun w => containsStr (pyLowerStr m) w)

/-- The vendor `for`/`return` loop: first candidate passing `vendorOk`. -/
def vendorLoop : List String → Option String
  | [] => none
  | m :: rest => if vendorOk m then some m else vendorLoop rest

/-- Python `max(matches, key=len)` (first of the longest). -/
def maxByLen : List String → String
  | [] => ""
  | x :: xs => xs.foldl (fun a b => if b.length > a.length then b else a) x

/-- `InvoiceExtractor._select_best_match`: clean the matches, then pick per
    data type — amount: largest `codeAmountVal`, printed back with `str()`;
    vendor: first non-generic candidate; concept: longest if longer than 10;
    fallthrough in all cases: the first cleaned match. -/
def select_best_match (cands : List String) (data_type : String) : Option String :=
  if cleanList cands = [] then none
  else if data_type = "amount" then
    if (cleanList cands).filterMap codeAmountVal = [] then some ((cleanList cands).headD "")
    else some (pyFloatStr (maxQList ((cleanList cands).filterMap codeAmountVal)))
  else if data_type = "vendor" then
    match vendorLoop (cleanList cands) with
    | some v => some v
    | none => some ((cleanList cands).headD "")
  else if data_type = "concept" then
    if maxByLen (cleanList cands) ≠ "" && (maxByLen (cleanList cands)).length > 10 then
      some (maxByLen (cleanList cands))
    else some ((cleanList cands).headD "")
  else some ((cleanList cands).headD "")

/- ## `InvoiceExtractor._detect_currency` (invoice_extractor.py:353-389) -/

/-- The symbol loop over `currency_checks`: first currency whose symbol occurs
    in the text (symbols compared as Unicode code points). -/
def symHit (t : String) : Option String :=
  (([("$", "USD"), ("€", "EUR"), ("£", "GBP"), ("¥", "JPY")].find?
      fun p => containsStr t p.1)).map (fun p => p.2)

/-- The code loop over `currency_codes`: first code contained in `text.upper()`. -/
def codeHit (t : String) : Option String :=
  ["USD", "EUR", "GBP", "COP", "MXN", "ARS", "PEN", "CLP"].find?
    fun c => containsStr (pyUpperStr t) c

/-- The keyword block: `peso`/`pesos` choose a regional code by country
    keyword (defaulting to COP); then dollar words → USD, euro words → EUR.
    Note `'cop' in text.upper()` is translated verbatim from the source (it
    compares a lowercase needle against an uppercased text). -/
def kwHit (t : String) : Option String :=
  let lo := pyLowerStr t
  if ["peso", "pesos"].any (fun w => containsStr lo w) then
    some (if containsStr lo "colombia" || containsStr (pyUpperStr t) "cop" then "COP"
      else if containsStr lo "mexico" || containsStr lo "mx" then "MXN"
      else if containsStr lo "argentina" || containsStr lo "arg" then "ARS"
      else "COP")
  else if ["dollar", "dollars", "dólar", "dólares"].any (fun w => containsStr lo w) then
    some "USD"
  else if ["euro", "euros"].any (fun w => containsStr lo w) then
    some "EUR"
  else none

/-- `InvoiceExtractor._detect_currency`: the three early-return blocks in
    source order, then the final `return 'USD'`. -/
def detect_currency (t : String) : String :=
  match symHit t with
  | some c => c
  | none =>
    match codeHit t with
    | some c => c
    | none =>
      match kwHit t with
      | some c => c
      | none => "USD"

/- ## Generic tag stripping: `re.sub(r'<[^>]+>', repl, s)`.
   Scanning state: `none` = outside a candidate tag; `some buf` = after a `<`,
   with the (reversed) characters read since then, none of which was `>`.
   `[^>]+` cannot cross a `>`, so the match attempted at a `<` ends at the
   first subsequent `>` (if at least one character lies between), and an
   unmatched `<` is kept verbatim. -/
def remTagsGo (repl : List Char) : Option (List Char) → List Char → List Char
  | none, [] => []
  | some buf, [] => '<' :: buf.reverse
  | none, c :: rest =>
    if c = '<' then remTagsGo repl (some []) rest
    else c :: remTagsGo repl none rest
  | some buf, c :: rest =>
    if c = '>' then
      if buf.isEmpty then '<' :: '>' :: remTagsGo repl none rest
      else repl ++ remTagsGo repl none rest
    else remTagsGo repl (some (c :: buf)) rest

/-- Python `\w` over the repertoire in play: ASCII alphanumerics, underscore,
    and the accented letters named in the source's character classes (the
    classes carry `re.IGNORECASE`, so both cases match). -/
def isWordCh (c : Char) : Bool :=
  c.isAlphanum || c == '_' ||
    ['á', 'é', 'í', 'ó', 'ú', 'ñ', 'ü', 'Á', 'É', 'Í', 'Ó', 'Ú', 'Ñ', 'Ü'].contains c

/-- `InvoiceExtractor._clean_vendor_name` (invoice_extractor.py:391-406):
    drop `<...>` runs, trim non-word characters from both ends
    (`re.sub(r'^[^\w]+|[^\w]+$', '', ...)`), truncate at 100 with `...`. -/
def clean_vendor_name (v : String) : String :=
  if v = "" then v
  else
    let v1 := pyStripList (remTagsGo [] none v.toList)
    let v2 := pyStripList ((v1.dropWhile (fun c => !isWordCh c)).reverse.dropWhile
      (fun c => !isWordCh c)).reverse
    let s2 := String.mk v2
    if s2.toList.length > 100 then pyTake s2 100 ++ "..." else s2

/-- `InvoiceExtractor._clean_concept` (invoice_extractor.py:408-420):
    collapse whitespace (`re.sub(r'\s+', ' ', ...)` + `strip()`), truncate at
    200 with `...`. -/
def clean_concept (c : String) : String :=
  if c = "" then c
  else
    let c1 := joinSplitWs c
    if c1.toList.length > 200 then pyTake c1 200 ++ "..." else c1

/-- Python `str.split('\n')` (explicit separator: empty parts are kept). -/
def splitOnCharGo (sep : Char) (acc : List Char) : List Char → List (List Char)
  | [] => [acc.reverse]
  | c :: rest =>
    if c = sep then acc.reverse :: splitOnCharGo sep [] rest
    else splitOnCharGo sep (c :: acc) rest

/-- `re.match(r'^[\d\s.,]+$', line)` succeeds iff the line is nonempty and
    made only of digits, whitespace, dots and commas. -/
def allDigitSpaceDotComma (cs : List Char) : Bool :=
  !cs.isEmpty && cs.all (fun c => c.isDigit || pyIsSpace c || c == '.' || c == ',')

/-- `InvoiceExtractor._infer_concept_from_context` (invoice_extractor.py:422-437):
    first stripped line of length 10 < n < 100 that is not all digits/spaces/
    punctuation, contains no `@`, and has 2-15 whitespace-separated words. -/
def inferConceptGo : List (List Char) → Option String
  | [] => none
  | l :: rest =>
    let line := pyStripList l
    if 10 < line.length ∧ line.length < 100 then
      if !allDigitSpaceDotComma line && !hasSubList ['@'] line then
        let words := splitWsGo [] line
        if 2 ≤ words.length ∧ words.length ≤ 15 then some (String.mk line)
        else inferConceptGo rest
      else inferConceptGo rest
    else inferConceptGo rest

/-- `InvoiceExtractor._infer_concept_from_context`. -/
def infer_concept_from_context (text : String) : Option String :=
  inferConceptGo (splitOnCharGo '\n' [] text.toList)

/-- The `methods` table of `_detect_payment_method` (invoice_extractor.py:439-454). -/
def methodsTable : List (String × List String) :=
  [("credit_card", ["tarjeta", "card", "visa", "mastercard", "amex"]),
   ("transfer", ["transferencia", "transfer", "wire", "banco"]),
   ("cash", ["efectivo", "cash", "contado"]),
   ("paypal", ["paypal"]),
   ("check", ["cheque", "check"])]

/-- `InvoiceExtractor._detect_payment_method`: first method with a keyword in
    the lowercased text, else `None`. -/
def detect_payment_method (t : String) : Option String :=
  let lo := pyLowerStr t
  (methodsTable.find? (fun p => p.2.any fun k => containsStr lo k)).map (fun p => p.1)

/-- `InvoiceExtractor._detect_language` (invoice_extractor.py:456-470). -/
def detect_language (t : String) : String :=
  let lo := pyLowerStr t
  let sc := (["factura", "importe", "fecha", "proveedor", "concepto", "pagar"].filter
    fun w => containsStr lo w).length
  let ec := (["invoice", "amount", "date", "vendor", "concept", "payment"].filter
    fun w => containsStr lo w).length
  if sc > ec then "es" else if ec > sc then "en" else "unknown"

/- ## The record dictionary.
   `extract` builds a Python dict with string keys whose values are strings,
   floats, or `None`; it is modelled as an insertion-ordered association list. -/

/-- A Python dict value as used by the extractor. -/
inductive Val where
  | vs (s : String)
  | vq (q : ℚ)
  | vnone
deriving DecidableEq

/-- The extractor's record dictionary. -/
abbrev Data := List (String × Val)

/-- Python `key in d` / `d[key]` lookup. -/
def dGet : Data → String → Option Val
  | [], _ => none
  | (k, v) :: rest, key => if k = key then some v else dGet rest key

/-- Python `d[key] = v` (updates in place, appends new keys at the end). -/
def dSet : Data → String → Val → Data
  | [], k, v => [(k, v)]
  | (k0, v0) :: rest, k, v =>
    if k0 = k then (k0, v) :: rest else (k0, v0) :: dSet rest k v

/-- Python truthiness of a dict value (`''`, `0.0` and `None` are falsy). -/
def valTruthy : Val → Bool
  | .vs s => s ≠ ""
  | .vq q => q ≠ 0
  | .vnone => false

/-- Python `str()` of a dict value. -/
def valStr : Val → String
  | .vs s => s
  | .vq q => pyFloatStr q
  | .vnone => "None"

/-- `data.get(key, '')` rendered with `str(...)`, as `_categorize_invoice` does. -/
def dGetStr (d : Data) (k : String) : String :=
  match dGet d k with
  | some v => valStr v
  | none => ""

/- ## `InvoiceExtractor._extract_with_patterns` (invoice_extractor.py:232-250).
   The regex engine behind `re.findall(pattern, text, re.IGNORECASE |
   re.MULTILINE)` is abstracted as an oracle mapping (field, pattern index,
   text) to the list of captured matches.  Everything proved for all oracles
   holds in particular for the real pattern tables. -/

/-- Findall oracle: field name, pattern index within the field's list, text. -/
abbrev Oracle := String → ℕ → String → List String

/-- Number of patterns per field in `_initialize_patterns`
    (invoice_extractor.py:67-156). -/
def patternCount (f : String) : ℕ :=
  if f = "amount" then 10
  else if f = "vendor" then 10
  else if f = "concept" then 12
  else if f = "invoice_number" then 8
  else if f = "invoice_date" then 5
  else if f = "due_date" then 3
  else if f = "tax" then 3
  else if f = "tax_id" then 3
  else 0

/-- Insertion order of the `self.patterns` dict. -/
def fieldOrder : List String :=
  ["amount", "vendor", "concept", "invoice_number", "invoice_date", "due_date", "tax", "tax_id"]

/-- The inner `for pattern in patterns` loop from pattern index `i` on, with
    `rem` patterns left: skip empty findall results and `None` best matches,
    stop (`break`) at the first truthy best match. -/
def extractFieldGo (o : Oracle) (text f : String) (i : ℕ) : ℕ → Option String
  | 0 => none
  | rem + 1 =>
    if o f i text = [] then extractFieldGo o text f (i + 1) rem
    else
      match select_best_match (o f i text) f with
      | some b => some b
      | none => extractFieldGo o text f (i + 1) rem

/-- One field of `_extract_with_patterns`. -/
def extractField (o : Oracle) (text f : String) : Option String :=
  extractFieldGo o text f 0 (patternCount f)

/-- `extracted[data_type] = best_match` for one field (no key when no match). -/
def addField (o : Oracle) (text : String) (d : Data) (f : String) : Data :=
  match extractField o text f with
  | some v => dSet d f (.vs v)
  | none => d

/-- `InvoiceExtractor._extract_with_patterns`: fold the per-field loop over
    the pattern table's insertion order, starting from `{}`. -/
def extract_with_patterns (o : Oracle) (text : String) : Data :=
  fieldOrder.foldl (addField o text) []

/- ## `InvoiceExtractor._enhance_with_context` (invoice_extractor.py:294-320) -/

/-- Wrap an optional string the way Python stores it in a dict slot. -/
def optVal : Option String → Val
  | some s => .vs s
  | none => .vnone

/-- The `if 'amount' in enhanced` block: parse the amount string and detect
    the currency from the full text. -/
def enhanceAmount (d : Data) (text : String) : Data :=
  match dGet d "amount" with
  | some v =>
    dSet (dSet d "amount" (.vq (parse_amount (valStr v)))) "currency"
      (.vs (detect_currency text))
  | none => d

/-- The `if 'vendor' in enhanced` block. -/
def enhanceVendor (d : Data) : Data :=
  match dGet d "vendor" with
  | some v => dSet d "vendor" (.vs (clean_vendor_name (valStr v)))
  | none => d

/-- The concept block: clean an extracted concept, else try to infer one. -/
def enhanceConcept (d : Data) (text : String) : Data :=
  match dGet d "concept" with
  | some v => dSet d "concept" (.vs (clean_concept (valStr v)))
  | none =>
    match infer_concept_from_context text with
    | some c => dSet d "concept" (.vs c)
    | none => d

/-- `_enhance_with_context`: the three field blocks in source order, then the
    unconditional `payment_method` and `language` assignments. -/
def enhance_with_context (d : Data) (text : String) : Data :=
  dSet
    (dSet (enhanceConcept (enhanceVendor (enhanceAmount d text)) text)
      "payment_method" (optVal (detect_payment_method text)))
    "language" (.vs (detect_language text))

/- ## `InvoiceExtractor._calculate_confidence` (invoice_extractor.py:472-490) -/

/-- The `weights` table, in source order (`category` last). -/
def confWeights : List (String × ℚ) :=
  [("amount", 0.25), ("vendor", 0.20), ("invoice_number", 0.15), ("concept", 0.15),
   ("invoice_date", 0.10), ("currency", 0.05), ("tax", 0.05), ("category", 0.05)]

/-- `field in data and data[field]`. -/
def fieldTruthy (d : Data) (f : String) : Bool :=
  match dGet d f with
  | some v => valTruthy v
  | none => false

/-- `_calculate_confidence`: sum the weights of the truthy fields, capped at 1. -/
def calculate_confidence (d : Data) : ℚ :=
  qMin (confWeights.foldl (fun acc p => if fieldTruthy d p.1 then acc + p.2 else acc) 0) 1

/- ## `InvoiceExtractor._categorize_invoice` (invoice_extractor.py:492-504) -/

/-- `self.category_keywords` from `_initialize_categories`
    (invoice_extractor.py:158-173), in insertion order. -/
def categoryKeywords : List (String × List String) :=
  [("utilities", ["electricidad", "gas", "agua", "electricity", "water", "power", "utility"]),
   ("telecommunications", ["internet", "telefono", "phone", "mobile", "banda ancha", "broadband"]),
   ("software", ["software", "licencia", "license", "subscription", "suscripcion", "app"]),
   ("hosting", ["hosting", "servidor", "server", "dominio", "domain", "cloud", "web"]),
   ("office", ["oficina", "office", "papeleria", "supplies", "material"]),
   ("transport", ["transporte", "transport", "envio", "shipping", "delivery", "entrega"]),
   ("food", ["comida", "food", "restaurante", "restaurant", "cafe", "almuerzo", "lunch"]),
   ("professional", ["servicios", "services", "consultoria", "consulting", "professional"]),
   ("rent", ["renta", "rent", "alquiler", "lease", "arrendamiento"]),
   ("insurance", ["seguro", "insurance", "poliza", "policy"]),
   ("financial", ["banco", "bank", "credito", "credit", "prestamo", "loan"]),
   ("miscellaneous", ["otros", "other", "misc", "general"])]

/-- `_categorize_invoice`: first category (in table order) with a keyword
    occurring in the lowercased text, vendor, or concept; else miscellaneous. -/
def categorize_invoice (d : Data) (text : String) : String :=
  match categoryKeywords.find? (fun p =>
      p.2.any fun k => containsStr (pyLowerStr text) k ||
        containsStr (pyLowerStr (dGetStr d "vendor")) k ||
        containsStr (pyLowerStr (dGetStr d "concept")) k) with
  | some p => p.1
  | none => "miscellaneous"

/- ## `InvoiceExtractor.extract` (invoice_extractor.py:175-211).
   The claims concern string contents, so the embedded entry point is the
   `str` variant of `_content_to_text`, under which `text = content`; the
   `if not text` guard then returns `None` exactly on the empty string.  The
   `try`/`except` wrapper also returns `None`; every embedded step is total,
   so no further failure path arises. -/
def assemble (d : Data) (text : String) : Data :=
  dSet (dSet d "confidence" (.vq (calculate_confidence d))) "category"
    (.vs (categorize_invoice (dSet d "confidence" (.vq (calculate_confidence d))) text))

/-- `extract` on a `str` content with a nonempty text: run the pattern
    extraction, enhance, then assemble confidence and category. -/
def extract (o : Oracle) (content : String) : Option Data :=
  if content = "" then none
  else some (assemble (enhance_with_context (extract_with_patterns o content) content) content)

/-- The all-empty findall oracle.  On the text `"123"` this is the honest
    oracle: no pattern of any field matches — every pattern requires a keyword
    (`total`, `from`, `invoice`, ...), a symbol (`$`, `#`, `@`), a currency
    code, a date separator, a letter, or more digits than `"123"` offers. -/
def oracleEmpty : Oracle := fun _ _ _ => []

/- ## `DocuFindProcessor._extract_clean_vendor` (find_documents_main.py:520-586) -/

/-- Characters kept by `re.sub(r'[^\w\s\-.,@<>áéíóúñü]', '', sender, flags=re.IGNORECASE)`. -/
def senderKeepCh (c : Char) : Bool :=
  isWordCh c || pyIsSpace c || c == '-' || c == '.' || c == ',' || c == '@' ||
    c == '<' || c == '>'

/-- Characters kept by `re.sub(r'[^\w\s\-áéíóúñü]', ' ', ...)` (others → space). -/
def nameKeepCh (c : Char) : Bool :=
  isWordCh c || pyIsSpace c || c == '-'

/-- Apply the name-cleaning substitution: non-kept characters become spaces. -/
def mapNameClean (s : String) : String :=
  String.mk (s.toList.map fun c => if nameKeepCh c then c else ' ')

/-- Characters kept by the fallback `re.sub(r'[^\w\s\-.,áéíóúñü]', ' ', ...)`. -/
def fallbackKeepCh (c : Char) : Bool :=
  isWordCh c || pyIsSpace c || c == '-' || c == '.' || c == ','

/-- Python `.strip('"\'')`. -/
def isQuoteCh (c : Char) : Bool := c == '"' || c == '\''

/-- Strip quote characters from both ends. -/
def stripQuotes (s : String) : String :=
  String.mk (((s.toList.dropWhile isQuoteCh).reverse.dropWhile isQuoteCh).reverse)

/-- The character class `[\w\.-]` of the e-mail pattern
    `r'[\w\.-]+@([\w\.-]+\.\w+)'`. -/
def isEmailCls (c : Char) : Bool :=
  isWordCh c || c == '.' || c == '-'

/-- The domain group `([\w\.-]+\.\w+)` matched greedily against the maximal
    `[\w\.-]` run `R` after the `@`: the engine backtracks the first `+` from
    the longest prefix, so the group is `R[0..k] ++ "." ++ w` for the largest
    `k ≥ 1` with `R[k] = '.'` followed by a word character, `w` being the
    maximal word run after that dot.  Checked downward from `k = |R| - 1`. -/
def domainGo (R : List Char) : ℕ → Option (List Char)
  | 0 => none
  | k + 1 =>
    if (R.get? k == some '.') && Nat.ble 1 k &&
        (match R.get? (k + 1) with | some c => isWordCh c | none => false) then
      some (R.take k ++ '.' :: ((R.drop (k + 1)).takeWhile isWordCh))
    else domainGo R k

/-- Try the domain part of the e-mail pattern right after an `@`. -/
def domainMatch (rest : List Char) : Option (List Char) :=
  let R := rest.takeWhile isEmailCls
  domainGo R R.length

/-- `re.search(r'[\w\.-]+@([\w\.-]+\.\w+)', s)`, returning group 1.  A match
    needs an `@` with at least one `[\w\.-]` character immediately before it
    (the `+` run cannot end anywhere else, since `@` is outside the class) and
    a valid domain after it; the leftmost such `@` wins.  The Boolean argument
    records whether the previous character belongs to the class. -/
def emailSearchGo : Bool → List Char → Option (List Char)
  | _, [] => none
  | prevCls, '@' :: rest =>
    if prevCls then
      match domainMatch rest with
      | some d => some d
      | none => emailSearchGo false rest
    else emailSearchGo false rest
  | _, c :: rest => emailSearchGo (isEmailCls c) rest

/-- Group 1 of the e-mail search as a string. -/
def emailSearchStr (s : String) : Option String :=
  (emailSearchGo false s.toList).map String.mk

/-- `re.match(r'^([^<]+?)\s*<', s)`: needs a `<`; the lazy group is the prefix
    before the first `<` with its maximal trailing-whitespace run eaten by
    `\s*` — degenerating to the first character when that prefix is all
    whitespace (the lazy `+?` still has to consume one character). -/
def nameMatchStr (s : String) : Option String :=
  let cs := s.toList
  if cs.contains '<' then
    let p := cs.takeWhile (fun c => c ≠ '<')
    if p.isEmpty then none
    else
      let g := (p.reverse.dropWhile pyIsSpace).reverse
      if g.isEmpty then some (String.mk (p.take 1)) else some (String.mk g)
  else none

/-- The `domain + subject excerpt` branch (find_documents_main.py:557-573):
    first 3 subject words, cleaned and re-joined; used only when longer than
    3 characters, ellipsized above 30; otherwise the domain alone. -/
def vendorSubjectOrDomain (domain subject : String) : String :=
  if subject ≠ "" then
    let w3 := (splitWsStr subject).take 3
    let cs0 := String.intercalate " " w3
    let cs1 := joinSplitWs (mapNameClean cs0)
    if cs1 ≠ "" ∧ cs1.toList.length > 3 then
      domain ++ " - " ++ (if cs1.toList.length > 30 then pyTake cs1 27 ++ "..." else cs1)
    else domain
  else domain

/-- `DocuFindProcessor._extract_clean_vendor`: clean the sender, search for an
    e-mail address, and compose `"{domain} - {name}"` with the display name
    (if usable), else with a subject excerpt, else the domain; without an
    e-mail address, fall back to the cleaned sender or a fixed label.
    Note the domain is `email_match.group(1).lower()` verbatim — no generic
    subdomain prefix (`mail.`, ...) is stripped on this path. -/
def extract_clean_vendor (sender subject : String) : String :=
  if sender = "" then "Remitente desconocido"
  else
    let clean1 := String.mk (sender.toList.filter senderKeepCh)
    match emailSearchStr clean1 with
    | some dom0 =>
      let domain := pyLowerStr dom0
      let nameRes :=
        match nameMatchStr (pyStrip clean1) with
        | some nm0 =>
          let n1 := stripQuotes (pyStrip nm0)
          let n2 := joinSplitWs (mapNameClean n1)
          if n2 ≠ "" ∧ n2.toList.length > 2 ∧ pyLowerStr n2 ≠ domain then
            some (domain ++ " - " ++
              (if n2.toList.length > 30 then pyTake n2 27 ++ "..." else n2))
          else none
        | none => none
      match nameRes with
      | some r => r
      | none => vendorSubjectOrDomain domain subject
    | none =>
      let c2 := joinSplitWs (String.mk (clean1.toList.map
        fun c => if fallbackKeepCh c then c else ' '))
      if c2 ≠ "" ∧ c2.toList.length > 3 then pyTake c2 50
      else "Remitente no identificado"

/- ## `DocuFindProcessor._extract_domain_from_sender` (find_documents_main.py:855-875).
   The source pattern is the raw string `r'[a-zA-Z0-9._%+-]+@([a-zA-Z0-9.-]+\\.[a-zA-Z]{2,})'`:
   inside a raw string `\\` matches one literal backslash and the following
   unescaped `.` matches any character except a newline, so the group only
   matches domains containing a literal backslash. -/

/-- `[a-zA-Z0-9._%+-]` (ASCII only — this pattern has no `\w`). -/
def isDomLocalCh (c : Char) : Bool :=
  c.isAlphanum || c == '.' || c == '_' || c == '%' || c == '+' || c == '-'

/-- `[a-zA-Z0-9.-]`. -/
def isDomCh (c : Char) : Bool :=
  c.isAlphanum || c == '.' || c == '-'

/-- The (mis-escaped) domain group `([a-zA-Z0-9.-]+\\.[a-zA-Z]{2,})`: a
    nonempty `[a-zA-Z0-9.-]` run, then a literal backslash (the run cannot end
    elsewhere, `\` being outside the class), any non-newline character, and at
    least two letters. -/
def domBugMatch (rest : List Char) : Option (List Char) :=
  let R := rest.takeWhile isDomCh
  if R.isEmpty then none
  else
    match rest.drop R.length with
    | '\\' :: c :: tail =>
      if c ≠ '\n' then
        let letters := tail.takeWhile Char.isAlpha
        if letters.length ≥ 2 then some (R ++ '\\' :: c :: letters) else none
      else none
    | _ => none

/-- `re.search` scan for the mis-escaped pattern: leftmost `@` with a local
    character before it and a backslash-containing domain after it. -/
def domBugSearchGo : Bool → List Char → Option (List Char)
  | _, [] => none
  | prevCls, '@' :: rest =>
    if prevCls then
      match domBugMatch rest with
      | some d => some d
      | none => domBugSearchGo false rest
    else domBugSearchGo false rest
  | _, c :: rest => domBugSearchGo (isDomLocalCh c) rest

/-- The generic-subdomain prefixes stripped by `_extract_domain_from_sender`. -/
def genericDomPrefixes : List String :=
  ["mail.", "email.", "smtp.", "imap.", "pop.", "no-reply.", "noreply."]

/-- Python `s.startswith(p)`. -/
def startsW (s p : String) : Bool := matchHere p.toList s.toList

/-- `DocuFindProcessor._extract_domain_from_sender`: group 1 of the search,
    lowercased, with each generic prefix stripped in turn; `""` when the
    pattern does not match (which, given the mis-escaped `\\.`, is every
    sender without a literal backslash in its domain). -/
def extract_domain_from_sender (sender : String) : String :=
  match domBugSearchGo false sender.toList with
  | some d =>
    let dom := pyLowerStr (String.mk d)
    genericDomPrefixes.foldl
      (fun acc p => if startsW acc p then String.mk (acc.toList.drop p.toList.length) else acc)
      dom
  | none => ""

/- ## The HTML-to-text conversion of `EmailProcessor._get_email_body`
   (email_processor.py:518-544), applied to a `text/html` part. -/

/-- First occurrence split: `some (before, after)` with `after` the suffix
    following the first occurrence of `pat`. -/
def findSubGo (pat : List Char) (acc : List Char) : List Char → Option (List Char × List Char)
  | [] => if matchHere pat [] then some (acc.reverse, []) else none
  | c :: rest =>
    if matchHere pat (c :: rest) then some (acc.reverse, (c :: rest).drop pat.length)
    else findSubGo pat (c :: acc) rest

/-- `[^>]*>` right after an opening-tag name: everything up to the first `>`
    is consumed; no `>` means no match. -/
def splitAtGt (cs : List Char) : Option (List Char) :=
  match cs.dropWhile (fun c => c ≠ '>') with
  | '>' :: tail => some tail
  | _ => none

/-- `re.sub(r'<script[^>]*>.*?</script>', '', s, flags=re.DOTALL)` (and the
    `style` analogue): find the literal opening `openT`, consume `[^>]*>`,
    then lazily up to the first literal `closeT`.  When any step fails there
    is no later match either (the missing `>` or `closeT` would be missing
    for every later occurrence too), so the remainder is kept as is.  `fuel`
    bounds the recursion; each removal consumes at least one character, so the
    input length suffices. -/
def removeBlockGo (openT closeT : List Char) : ℕ → List Char → List Char
  | 0, cs => cs
  | fuel + 1, cs =>
    match findSubGo openT [] cs with
    | none => cs
    | some (before, rest) =>
      match splitAtGt rest with
      | none => cs
      | some afterGt =>
        match findSubGo closeT [] afterGt with
        | none => cs
        | some (_, tail) => before ++ removeBlockGo openT closeT fuel tail

/-- Remove `openT[^>]*>.*?closeT` blocks wholesale. -/
def removeBlocks (openT closeT : String) (cs : List Char) : List Char :=
  removeBlockGo openT.toList closeT.toList cs.length cs

/-- The alternation `</(div|p|br|h[1-6])>`: try to match a closing block tag
    at the head, returning the remainder. -/
def matchCloseTag (cs : List Char) : Option (List Char) :=
  match cs with
  | '<' :: '/' :: rest =>
    ((["div", "p", "br", "h1", "h2", "h3", "h4", "h5", "h6"].map String.toList).filterMap
      (fun n => if matchHere (n ++ ['>']) rest then some (rest.drop (n.length + 1)) else none)).head?
  | _ => none

/-- `re.sub(r'</(div|p|br|h[1-6])>', '\n', s)`, leftmost non-overlapping. -/
def closeTagsGo : ℕ → List Char → List Char
  | 0, cs => cs
  | fuel + 1, cs =>
    match cs with
    | [] => []
    | c :: rest =>
      match matchCloseTag cs with
      | some tail => '\n' :: closeTagsGo fuel tail
      | none => c :: closeTagsGo fuel rest

/-- `<br[^>]*>` at the head, returning the remainder. -/
def matchBrTag (cs : List Char) : Option (List Char) :=
  match cs with
  | '<' :: 'b' :: 'r' :: rest => splitAtGt rest
  | _ => none

/-- `re.sub(r'<br[^>]*>', '\n', s)`, leftmost non-overlapping. -/
def brTagsGo : ℕ → List Char → List Char
  | 0, cs => cs
  | fuel + 1, cs =>
    match cs with
    | [] => []
    | c :: rest =>
      match matchBrTag cs with
      | some tail => '\n' :: brTagsGo fuel tail
      | none => c :: brTagsGo fuel rest

/-- The `text/html` branch of `EmailProcessor._get_email_body`
    (email_processor.py:518-542): drop `<script>`/`<style>` blocks wholesale,
    turn closing block tags and `<br>` into newlines, replace remaining tags
    by spaces, decode the four handled entities, and normalise whitespace with
    `' '.join(text.split())`. -/
def html_part_to_text (s : String) : String :=
  let c1 := removeBlocks "<script" "</script>" s.toList
  let c2 := removeBlocks "<style" "</style>" c1
  let c3 := closeTagsGo c2.length c2
  let c4 := brTagsGo c3.length c3
  let c5 := remTagsGo [' '] none c4
  let t1 := strReplace (String.mk c5) "&nbsp;" " "
  let t2 := strReplace t1 "&amp;" "&"
  let t3 := strReplace t2 "&lt;" "<"
  let t4 := strReplace t3 "&gt;" ">"
  joinSplitWs t4

/- ## Supporting lemmas -/

theorem dGet_dSet_self (d : Data) (k : String) (v : Val) : dGet (dSet d k v) k = some v := by
  induction d with
  | nil => simp [dSet, dGet]
  | cons hd tl ih =>
    obtain ⟨k0, v0⟩ := hd
    by_cases h : k0 = k
    · simp [dSet, dGet, h]
    · simp [dSet, dGet, h, ih]

theorem dGet_dSet_ne (d : Data) (k k' : String) (v : Val) (h : k ≠ k') :
    dGet (dSet d k v) k' = dGet d k' := by
  induction d with
  | nil => simp [dSet, dGet, h]
  | cons hd tl ih =>
    obtain ⟨k0, v0⟩ := hd
    by_cases h0 : k0 = k
    · subst h0
      simp [dSet, dGet, h]
    · by_cases h1 : k0 = k'
      · subst h1
        simp [dSet, dGet, h0, Ne.symm h]
      · simp [dSet, dGet, h0, h1, ih]

theorem dGet_foldl_addField (o : Oracle) (t : String) (fs : List String) (d : Data)
    (k : String) (h : ¬ k ∈ fs) : dGet (fs.foldl (addField o t) d) k = dGet d k := by
  induction fs generalizing d with
  | nil => rfl
  | cons f rest ih =>
    have hk : k ≠ f ∧ ¬ k ∈ rest := by
      constructor
      · intro he; exact h (he ▸ List.mem_cons_self f rest)
      · intro hm; exact h (List.mem_cons_of_mem f hm)
    simp only [List.foldl_cons]
    rw [ih _ hk.2]
    unfold addField
    cases extractField o t f with
    | none => rfl
    | some v => exact dGet_dSet_ne d f k _ (fun he => hk.1 he.symm)

theorem dGet_enhanceAmount_ne (d : Data) (t : String) (k : String)
    (h1 : k ≠ "amount") (h2 : k ≠ "currency") :
    dGet (enhanceAmount d t) k = dGet d k := by
  unfold enhanceAmount
  cases dGet d "amount" with
  | none => rfl
  | some v =>
    rw [dGet_dSet_ne _ _ _ _ (fun he => h2 he.symm),
      dGet_dSet_ne _ _ _ _ (fun he => h1 he.symm)]

theorem dGet_enhanceVendor_ne (d : Data) (k : String) (h : k ≠ "vendor") :
    dGet (enhanceVendor d) k = dGet d k := by
  unfold enhanceVendor
  cases dGet d "vendor" with
  | none => rfl
  | some v => rw [dGet_dSet_ne _ _ _ _ (fun he => h he.symm)]

theorem dGet_enhanceConcept_ne (d : Data) (t : String) (k : String) (h : k ≠ "concept") :
    dGet (enhanceConcept d t) k = dGet d k := by
  unfold enhanceConcept
  cases dGet d "concept" with
  | some v => rw [dGet_dSet_ne _ _ _ _ (fun he => h he.symm)]
  | none =>
    cases infer_concept_from_context t with
    | some c => rw [dGet_dSet_ne _ _ _ _ (fun he => h he.symm)]
    | none => rfl

theorem dGet_enhance_category (d : Data) (t : String) (h : dGet d "category" = none) :
    dGet (enhance_with_context d t) "category" = none := by
  unfold enhance_with_context
  rw [dGet_dSet_ne _ _ _ _ (by decide), dGet_dSet_ne _ _ _ _ (by decide),
    dGet_enhanceConcept_ne _ _ _ (by decide), dGet_enhanceVendor_ne _ _ (by decide),
    dGet_enhanceAmount_ne _ _ _ (by decide) (by decide), h]

theorem extract_with_patterns_category (o : Oracle) (t : String) :
    dGet (extract_with_patterns o t) "category" = none := by
  unfold extract_with_patterns
  rw [dGet_foldl_addField o t fieldOrder [] "category" (by decide)]
  rfl

theorem qMin_le_left (a b : ℚ) : qMin a b ≤ a := by
  unfold qMin
  split
  · exact le_refl a
  · exact le_of_not_le (by assumption)

theorem qMin_le_right (a b : ℚ) : qMin a b ≤ b := by
  unfold qMin
  split
  · assumption
  · exact le_refl b

theorem le_qMin (a b c : ℚ) (h1 : c ≤ a) (h2 : c ≤ b) : c ≤ qMin a b := by
  unfold qMin
  split
  · exact h1
  · exact h2

theorem le_qMax_left (a b : ℚ) : a ≤ qMax a b := by
  unfold qMax
  split
  · exact le_of_lt (by assumption)
  · exact le_refl a

theorem le_qMax_right (a b : ℚ) : b ≤ qMax a b := by
  unfold qMax
  split
  · exact le_refl b
  · exact le_of_not_lt (by assumption)

theorem qMax_choice (a b : ℚ) : qMax a b = a ∨ qMax a b = b := by
  unfold qMax
  split
  · exact Or.inr rfl
  · exact Or.inl rfl

theorem foldl_qMax_mem (xs : List ℚ) : ∀ x : ℚ, xs.foldl qMax x ∈ x :: xs := by
  induction xs with
  | nil =>
    intro x
    simp [List.foldl_nil]
  | cons y ys ih =>
    intro x
    simp only [List.foldl_cons]
    have hm := ih (qMax x y)
    rcases List.mem_cons.mp hm with hh | ht
    · rw [hh]
      rcases qMax_choice x y with h | h <;> rw [h]
      · exact List.mem_cons_self _ _
      · exact List.mem_cons_of_mem _ (List.mem_cons_self _ _)
    · exact List.mem_cons_of_mem _ (List.mem_cons_of_mem _ ht)

theorem le_foldl_qMax (xs : List ℚ) : ∀ x a : ℚ, a ∈ x :: xs → a ≤ xs.foldl qMax x := by
  induction xs with
  | nil =>
    intro x a h
    simp only [List.foldl_nil]
    exact le_of_eq (List.mem_singleton.mp h)
  | cons y ys ih =>
    intro x a h
    simp only [List.foldl_cons]
    rcases List.mem_cons.mp h with rfl | ht
    · exact le_trans (le_qMax_left a y) (ih (qMax a y) (qMax a y) (List.mem_cons_self _ _))
    · rcases List.mem_cons.mp ht with rfl | ht2
      · exact le_trans (le_qMax_right x a) (ih (qMax x a) (qMax x a) (List.mem_cons_self _ _))
      · exact ih (qMax x y) a (List.mem_cons_of_mem _ ht2)

theorem maxQList_mem (l : List ℚ) (h : l ≠ []) : maxQList l ∈ l := by
  cases l with
  | nil => exact absurd rfl h
  | cons x xs => exact foldl_qMax_mem xs x

theorem le_maxQList (l : List ℚ) (a : ℚ) (h : a ∈ l) : a ≤ maxQList l := by
  cases l with
  | nil => exact absurd h (List.not_mem_nil a)
  | cons x xs => exact le_foldl_qMax xs x a h

/-- The weighted-sum step of `_calculate_confidence`. -/
def confStep (d : Data) (acc : ℚ) (p : String × ℚ) : ℚ :=
  if fieldTruthy d p.1 then acc + p.2 else acc

theorem calculate_confidence_eq (d : Data) :
    calculate_confidence d = qMin (confWeights.foldl (confStep d) 0) 1 := rfl

theorem confStep_ge (d : Data) (acc : ℚ) (p : String × ℚ) (hw : 0 ≤ p.2) :
    acc ≤ confStep d acc p := by
  unfold confStep
  split
  · linarith
  · exact le_refl acc

theorem confStep_le (d : Data) (acc : ℚ) (p : String × ℚ) (hw : 0 ≤ p.2) :
    confStep d acc p ≤ acc + p.2 := by
  unfold confStep
  split
  · exact le_refl _
  · linarith

theorem foldl_confStep_ge (d : Data) (ws : List (String × ℚ)) (acc : ℚ)
    (hw : ∀ p ∈ ws, 0 ≤ p.2) : acc ≤ ws.foldl (confStep d) acc := by
  induction ws generalizing acc with
  | nil => exact le_refl acc
  | cons p rest ih =>
    simp only [List.foldl_cons]
    refine le_trans (confStep_ge d acc p (hw p (List.mem_cons_self _ _))) ?_
    exact ih _ (fun q hq => hw q (List.mem_cons_of_mem _ hq))

theorem foldl_confStep_le (d : Data) (ws : List (String × ℚ)) (acc : ℚ)
    (hw : ∀ p ∈ ws, 0 ≤ p.2) :
    ws.foldl (confStep d) acc ≤ acc + (ws.map Prod.snd).sum := by
  induction ws generalizing acc with
  | nil => simp
  | cons p rest ih =>
    simp only [List.foldl_cons, List.map_cons, List.sum_cons]
    refine le_trans (ih _ (fun q hq => hw q (List.mem_cons_of_mem _ hq))) ?_
    have := confStep_le d acc p (hw p (List.mem_cons_self _ _))
    linarith

theorem confWeights_nonneg : ∀ p ∈ confWeights, (0:ℚ) ≤ p.2 := by
  intro p hp
  fin_cases hp <;> norm_num

theorem conf_nonneg (d : Data) : 0 ≤ calculate_confidence d := by
  rw [calculate_confidence_eq]
  exact le_qMin _ _ _ (foldl_confStep_ge d confWeights 0 confWeights_nonneg) (by norm_num)

theorem conf_le_one (d : Data) : calculate_confidence d ≤ 1 := by
  rw [calculate_confidence_eq]
  exact qMin_le_right _ _

/-- The first seven weight rows — everything except `category`. -/
def confWeightsMain : List (String × ℚ) :=
  [("amount", 0.25), ("vendor", 0.20), ("invoice_number", 0.15), ("concept", 0.15),
   ("invoice_date", 0.10), ("currency", 0.05), ("tax", 0.05)]

theorem confWeightsMain_nonneg : ∀ p ∈ confWeightsMain, (0:ℚ) ≤ p.2 := by
  intro p hp
  fin_cases hp <;> norm_num

theorem conf_le_95 (d : Data) (hcat : dGet d "category" = none) :
    calculate_confidence d ≤ 0.95 := by
  rw [calculate_confidence_eq]
  have hsplit : confWeights = confWeightsMain ++ [("category", 0.05)] := rfl
  have htr : fieldTruthy d "category" = false := by
    unfold fieldTruthy
    rw [hcat]
  rw [hsplit, List.foldl_append]
  simp only [List.foldl_cons, List.foldl_nil, confStep, htr, Bool.false_eq_true, if_false]
  have hle := foldl_confStep_le d confWeightsMain 0 confWeightsMain_nonneg
  have hsum : ((confWeightsMain.map Prod.snd).sum : ℚ) = 0.95 := by
    simp [confWeightsMain]
    norm_num
  refine le_trans (qMin_le_left _ _) ?_
  rw [hsum] at hle
  linarith

theorem categorize_ne_empty (d : Data) (t : String) : categorize_invoice d t ≠ "" := by
  unfold categorize_invoice
  cases hf : categoryKeywords.find? (fun p =>
      p.2.any fun k => containsStr (pyLowerStr t) k ||
        containsStr (pyLowerStr (dGetStr d "vendor")) k ||
        containsStr (pyLowerStr (dGetStr d "concept")) k) with
  | none => simp
  | some p =>
    have hp : p ∈ categoryKeywords := List.mem_of_find?_eq_some hf
    have hne : ∀ q ∈ categoryKeywords, q.1 ≠ "" := by decide
    simpa using hne p hp

theorem select_best_match_nil (f : String) : select_best_match [] f = none := rfl

theorem vendorLoop_some (l : List String) : ∀ v : String, vendorLoop l = some v →
    v ∈ l ∧ vendorOk v = true := by
  induction l with
  | nil => intro v h; exact absurd h (by simp [vendorLoop])
  | cons m rest ih =>
    intro v h
    unfold vendorLoop at h
    cases hm : vendorOk m with
    | true =>
      simp only [hm, if_true] at h
      obtain rfl : m = v := by injection h
      exact ⟨List.mem_cons_self _ _, hm⟩
    | false =>
      simp only [hm, Bool.false_eq_true, if_false] at h
      obtain ⟨h1, h2⟩ := ih v h
      exact ⟨List.mem_cons_of_mem _ h1, h2⟩

theorem vendorLoop_none (l : List String) (h : vendorLoop l = none) :
    ∀ m ∈ l, vendorOk m = false := by
  induction l with
  | nil => intro m hm; exact absurd hm (List.not_mem_nil m)
  | cons m rest ih =>
    unfold vendorLoop at h
    cases hm : vendorOk m with
    | true => exact absurd h (by simp [hm])
    | false =>
      simp only [hm, Bool.false_eq_true, if_false] at h
      intro q hq
      rcases List.mem_cons.mp hq with rfl | ht
      · exact hm
      · exact ih h q ht

theorem extractFieldGo_spec (o : Oracle) (t f v : String) :
    ∀ (rem i j : ℕ), i ≤ j → j < i + rem →
      (∀ k, i ≤ k → k < j → select_best_match (o f k t) f = none) →
      select_best_match (o f j t) f = some v →
      extractFieldGo o t f i rem = some v := by
  intro rem
  induction rem with
  | zero => intro i j h1 h2 _ _; omega
  | succ rem ih =>
    intro i j h1 h2 hprev hsel
    unfold extractFieldGo
    by_cases hij : i = j
    · subst hij
      by_cases hms : o f i t = []
      · rw [hms, select_best_match_nil] at hsel
        exact absurd hsel (by simp)
      · rw [if_neg hms, hsel]
    · have hij' : i < j := lt_of_le_of_ne h1 hij
      have hnone : select_best_match (o f i t) f = none := hprev i (le_refl i) hij'
      have hrec : extractFieldGo o t f (i + 1) rem = some v :=
        ih (i + 1) j hij' (by omega) (fun k hk1 hk2 => hprev k (by omega) hk2) hsel
      by_cases hms : o f i t = []
      · rw [if_pos hms]
        exact hrec
      · rw [if_neg hms, hnone]
        exact hrec

/- ## Concrete instances used by the claims -/

/-- The concrete text `"total: 5\namount: 7"` used against the amount field. -/
def T4 : String := "total: 5\namount: 7"

/-- The honest findall oracle for `T4` on the amount patterns
    (invoice_extractor.py:73-87): pattern 0 (`total:...`) captures `"5"`,
    pattern 1 (`amount:...`) captures `"7"`, and no other amount pattern
    matches — patterns 2-4 and 7-9 need the keywords `importe`/`valor`/
    `subtotal`/`pagar`/`cobrar`/`facturar`, pattern 5 needs a `$`, and
    pattern 6 needs a trailing currency code, none of which occur in `T4`. -/
def oracle4 : Oracle := fun f i _ =>
  if f = "amount" ∧ i = 0 then ["5"]
  else if f = "amount" ∧ i = 1 then ["7"]
  else []

/-- Modelled from the spec: the candidate list §4.2 describes — every match of
    every pattern of the field, appended across patterns (`not just the
    first`).  Used only to compare the code's per-field result against the
    spec's collection rule. -/
def allCandidatesSpec (o : Oracle) (t f : String) : List String :=
  ((List.range (patternCount f)).map fun i => o f i t).flatten

/-- The sender header of the C5 reference equation. -/
def sender5 : String := "\"Acme Corp\" <billing@mail.acme.com>"

/-- The HTML input of the C9 reference property. -/
def html9 : String := "<script>alert(1)</script><p>Hola</p>"

/-- The record extracted from the text `"123"` under the honest (all-empty)
    oracle; used to instantiate the universally quantified record theorems. -/
def rec123 : Data := (extract oracleEmpty "123").getD []

/- ## Claim theorems -/

/-- C1 (as stated, refuted): the claim says every code path of `extract`
    yields a record; on the empty input the code returns `None` instead. -/
theorem c1_counterexample : extract oracleEmpty "" = none := by decide

/-- C1 (amended): `extract` never propagates an exception — it is total — and
    returns `None` exactly on an empty extracted text; no code path builds a
    minimal `confidence = 0` / `category = "error"` record (that fallback
    lives in the caller, `_create_minimal_invoice_data`, with different
    values).  Formally: the result is `none` iff the text is empty. -/
theorem c1_theorem (o : Oracle) (t : String) : extract o t = none ↔ t = "" := by
  unfold extract
  by_cases ht : t = "" <;> simp [ht]

/-- C2 (as stated, refuted): on the input `"123"` `extract` returns a record
    with no `vendor` key at all — the claimed non-null `vendor` field fails. -/
theorem c2_counterexample :
    (extract oracleEmpty "123").isSome = true ∧
    dGet ((extract oracleEmpty "123").getD []) "vendor" = none := by decide

/-- C2 (amended): whenever `extract` returns a record, its confidence is a
    number in [0, 1] and its category is a non-empty string; the vendor key
    may be absent. -/
theorem c2_theorem (o : Oracle) (t : String) (d : Data) (h : extract o t = some d) :
    ∃ c : ℚ, dGet d "confidence" = some (.vq c) ∧ 0 ≤ c ∧ c ≤ 1 ∧
      ∃ cat : String, dGet d "category" = some (.vs cat) ∧ cat ≠ "" := by
  unfold extract at h
  by_cases ht : t = ""
  · rw [if_pos ht] at h
    exact absurd h (by simp)
  · rw [if_neg ht] at h
    injection h with h'
    have hd : d = assemble (enhance_with_context (extract_with_patterns o t) t) t := h'.symm
    subst hd
    unfold assemble
    refine ⟨calculate_confidence (enhance_with_context (extract_with_patterns o t) t),
      ?_, conf_nonneg _, conf_le_one _, categorize_invoice _ t, dGet_dSet_self _ _ _,
      categorize_ne_empty _ _⟩
    rw [dGet_dSet_ne _ _ _ _ (by decide)]
    exact dGet_dSet_self _ _ _

/-- C2 witness: the theorem applied to the record extracted from `"123"`. -/
theorem c2_witness :
    ∃ c : ℚ, dGet rec123 "confidence" = some (.vq c) ∧ 0 ≤ c ∧ c ≤ 1 ∧
      ∃ cat : String, dGet rec123 "category" = some (.vs cat) ∧ cat ≠ "" :=
  c2_theorem oracleEmpty "123" rec123 (by rfl)

/-- C3 (as stated, refuted): `_parse_amount` returns a bare number, not the
    pair `(0.0, false)` — on `"garbage"` it yields the same `0.0` as a
    genuinely parsed zero, so no `parsed` flag reaches the caller. -/
theorem c3_counterexample : parse_amount "garbage" = 0 ∧ parse_amount "0" = 0 := by decide

/-- C3 (amended): the three numeric reference equations hold, and unparseable
    input never raises and returns the bare float 0.0 (no success flag). -/
theorem c3_theorem :
    parse_amount "1.234,56" = 1234.56 ∧ parse_amount "1,234.56" = 1234.56 ∧
    parse_amount "1234,56" = 1234.56 ∧ parse_amount "garbage" = 0 := by
  have e : (mkRat 123456 100 : ℚ) = 1234.56 := by
    rw [Rat.mkRat_eq_divInt, Rat.divInt_eq_div]
    norm_num
  have h1 : parse_amount "1.234,56" = mkRat 123456 100 := by decide
  have h2 : parse_amount "1,234.56" = mkRat 123456 100 := by decide
  have h3 : parse_amount "1234,56" = mkRat 123456 100 := by decide
  exact ⟨h1.trans e, h2.trans e, h3.trans e, by decide⟩

/-- C4 (as stated, refuted): on `T4` the field extractor keeps only the
    matches of the first succeeding pattern (`["5"]`, giving `"5.0"`), not the
    spec's cross-pattern candidate list `["5", "7"]` (which would give
    `"7.0"`, the larger amount). -/
theorem c4_counterexample :
    extractField oracle4 T4 "amount" = some "5.0" ∧
    allCandidatesSpec oracle4 T4 "amount" = ["5", "7"] ∧
    select_best_match (allCandidatesSpec oracle4 T4 "amount") "amount" = some "7.0" ∧
    extractField oracle4 T4 "amount" ≠
      select_best_match (allCandidatesSpec oracle4 T4 "amount") "amount" := by decide

/-- C4 (amended): for every field, patterns are tried in order and the loop
    `break`s at the first pattern whose matches yield a truthy best match;
    the matches of the remaining patterns are never consulted. -/
theorem c4_theorem (o : Oracle) (t f : String) (j : ℕ) (v : String)
    (hj : j < patternCount f)
    (hprev : ∀ i, i < j → select_best_match (o f i t) f = none)
    (hsel : select_best_match (o f j t) f = some v) :
    extractField o t f = some v := by
  unfold extractField
  exact extractFieldGo_spec o t f v (patternCount f) 0 j (Nat.zero_le j) (by omega)
    (fun k _ hk2 => hprev k hk2) hsel

/-- C4 witness: pattern 0 succeeds on `T4`, so its best match is the result. -/
theorem c4_witness : extractField oracle4 T4 "amount" = some "5.0" :=
  c4_theorem oracle4 T4 "amount" 0 "5.0" (by decide)
    (fun i hi => absurd hi (Nat.not_lt_zero i)) (by decide)

/-- C5 (as stated, refuted): the resolver does not strip the `mail.` prefix,
    so the reference equation's value `"acme.com - Acme Corp"` is not
    produced. -/
theorem c5_counterexample :
    extract_clean_vendor sender5 "Invoice #123" ≠ "acme.com - Acme Corp" := by decide

/-- C5 (amended): the resolver yields `"mail.acme.com - Acme Corp"` — the
    domain is taken verbatim from the address and combined with the display
    name; the prefix-stripping helper `_extract_domain_from_sender` never
    fires on such senders because its over-escaped pattern (`\\.`) demands a
    literal backslash inside the domain, so it returns `""` here. -/
theorem c5_theorem :
    extract_clean_vendor sender5 "Invoice #123" = "mail.acme.com - Acme Corp" ∧
    extract_domain_from_sender sender5 = "" := by decide

/-- C6 (as stated, refuted): amount selection does not parse candidates with
    `_parse_amount`; it strips the commas instead, so `"1234,56"` counts as
    123456 and beats 2000, whereas the claimed maximum over `_parse_amount`
    values is 2000. -/
theorem c6_counterexample :
    select_best_match ["1234,56", "2000"] "amount" = some "123456.0" ∧
    pyFloatStr (maxQList (["1234,56", "2000"].map parse_amount)) = "2000.0" ∧
    select_best_match ["1234,56", "2000"] "amount" ≠
      some (pyFloatStr (maxQList (["1234,56", "2000"].map parse_amount))) := by decide

/-- C6 (amended): the selected amount is the maximum of the values obtained by
    the comma-stripping parse (`float(re.sub(r'[^\d.,]', '', m).replace(',', ''))`)
    of each cleaned candidate, printed back with `str()`. -/
theorem c6_theorem (cands : List String)
    (h : (cleanList cands).filterMap codeAmountVal ≠ []) :
    ∃ v : ℚ, select_best_match cands "amount" = some (pyFloatStr v) ∧
      v ∈ (cleanList cands).filterMap codeAmountVal ∧
      ∀ a ∈ (cleanList cands).filterMap codeAmountVal, a ≤ v := by
  have hcl : cleanList cands ≠ [] := by
    intro hc
    apply h
    rw [hc]
    rfl
  unfold select_best_match
  rw [if_neg hcl, if_pos rfl, if_neg h]
  exact ⟨maxQList _, rfl, maxQList_mem _ h, fun a ha => le_maxQList _ a ha⟩

/-- C6 witness: the theorem applied to the counterexample's candidate list. -/
theorem c6_witness :
    ∃ v : ℚ, select_best_match ["1234,56", "2000"] "amount" = some (pyFloatStr v) ∧
      v ∈ (cleanList ["1234,56", "2000"]).filterMap codeAmountVal ∧
      ∀ a ∈ (cleanList ["1234,56", "2000"]).filterMap codeAmountVal, a ≤ v :=
  c6_theorem ["1234,56", "2000"] (by decide)

/-- C7 (as stated, refuted): `"billing@acme.com"` contains `@` with a
    non-generic local part, yet the code returns `"Acme Corp"` — the loop
    returns the first candidate that is not a generic e-mail, with no
    preference for `@` candidates. -/
theorem c7_counterexample :
    select_best_match ["Acme Corp", "billing@acme.com"] "vendor" = some "Acme Corp" ∧
    containsStr "billing@acme.com" "@" = true ∧
    (["noreply", "no-reply", "donotreply"].any fun w =>
      containsStr (pyLowerStr "billing@acme.com") w) = false ∧
    ("Acme Corp" : String) ≠ "billing@acme.com" := by decide

/-- C7 (amended): vendor selection returns a cleaned candidate that passes the
    non-generic test, and only falls back — to the first cleaned candidate,
    not the longest non-numeric one — when every candidate fails it. -/
theorem c7_theorem (cands : List String) (v : String)
    (h : select_best_match cands "vendor" = some v) :
    v ∈ cleanList cands ∧
      (vendorOk v = true ∨
        ((∀ m ∈ cleanList cands, vendorOk m = false) ∧ v = (cleanList cands).headD "")) := by
  unfold select_best_match at h
  by_cases hcl : cleanList cands = []
  · rw [if_pos hcl] at h
    exact absurd h (by simp)
  · rw [if_neg hcl, if_neg (by decide : ¬ ("vendor" : String) = "amount"), if_pos rfl] at h
    cases hv : vendorLoop (cleanList cands) with
    | some u =>
      rw [hv] at h
      obtain rfl : u = v := by injection h
      obtain ⟨h1, h2⟩ := vendorLoop_some (cleanList cands) u hv
      exact ⟨h1, Or.inl h2⟩
    | none =>
      rw [hv] at h
      obtain rfl : (cleanList cands).headD "" = v := by injection h
      constructor
      · cases hcc : cleanList cands with
        | nil => exact absurd hcc hcl
        | cons x xs =>
          simp [List.headD_cons]
      · exact Or.inr ⟨vendorLoop_none _ hv, rfl⟩

/-- C7 witness: the theorem applied to the counterexample's candidate list. -/
theorem c7_witness :
    ("Acme Corp" : String) ∈ cleanList ["Acme Corp", "billing@acme.com"] ∧
      (vendorOk "Acme Corp" = true ∨
        ((∀ m ∈ cleanList ["Acme Corp", "billing@acme.com"], vendorOk m = false) ∧
          ("Acme Corp" : String) = (cleanList ["Acme Corp", "billing@acme.com"]).headD "")) :=
  c7_theorem ["Acme Corp", "billing@acme.com"] "Acme Corp" (by decide)

/-- C8 (confirmed): currency detection follows the strict priority order —
    explicit symbol, then explicit ISO code in the uppercased text, then
    keyword inference (with the peso country keywords and the fixed COP
    default inside `kwHit`), then the global default `"USD"`. -/
theorem c8_theorem (t : String) :
    (∀ c, symHit t = some c → detect_currency t = c) ∧
    (symHit t = none → ∀ c, codeHit t = some c → detect_currency t = c) ∧
    (symHit t = none → codeHit t = none → ∀ c, kwHit t = some c → detect_currency t = c) ∧
    (symHit t = none → codeHit t = none → kwHit t = none → detect_currency t = "USD") := by
  refine ⟨?_, ?_, ?_, ?_⟩
  · intro c hc
    unfold detect_currency
    rw [hc]
  · intro h1 c hc
    unfold detect_currency
    rw [h1, hc]
  · intro h1 h2 c hc
    unfold detect_currency
    rw [h1, h2, hc]
  · intro h1 h2 h3
    unfold detect_currency
    rw [h1, h2, h3]

/-- C8 witness: a euro symbol wins immediately. -/
theorem c8_witness : detect_currency "€ 9" = "EUR" := by
  have h := c8_theorem "€ 9"
  exact h.1 "EUR" (by decide)

/-- C9 (confirmed): normalizing the reference HTML input removes the script
    block wholesale — the result is exactly `"Hola"`, containing `"Hola"` and
    not containing `"alert"`. -/
theorem c9_theorem :
    containsStr (html_part_to_text html9) "Hola" = true ∧
    containsStr (html_part_to_text html9) "alert" = false ∧
    html_part_to_text html9 = "Hola" := by decide

/-- C10 (confirmed): `extract` computes the confidence before the category key
    is added, so the category weight of 0.05 never contributes and every
    returned record has confidence at most 0.95. -/
theorem c10_theorem (o : Oracle) (t : String) (d : Data) (h : extract o t = some d) :
    ∃ c : ℚ, dGet d "confidence" = some (.vq c) ∧ c ≤ 0.95 := by
  unfold extract at h
  by_cases ht : t = ""
  · rw [if_pos ht] at h
    exact absurd h (by simp)
  · rw [if_neg ht] at h
    injection h with h'
    have hd : d = assemble (enhance_with_context (extract_with_patterns o t) t) t := h'.symm
    subst hd
    unfold assemble
    have hcat : dGet (enhance_with_context (extract_with_patterns o t) t) "category" = none :=
      dGet_enhance_category _ _ (extract_with_patterns_category o t)
    refine ⟨_, ?_, conf_le_95 _ hcat⟩
    rw [dGet_dSet_ne _ _ _ _ (by decide)]
    exact dGet_dSet_self _ _ _

/-- C10 witness: the theorem applied to the record extracted from `"123"`. -/
theorem c10_witness : ∃ c : ℚ, dGet rec123 "confidence" = some (.vq c) ∧ c ≤ 0.95 :=
  c10_theorem oracleEmpty "123" rec123 (by rfl)
